import Mathlib

/-!
Verification development for the Planar Nexus game client.

Shallow embedding of two subsystems, translated from the TypeScript source:

* `src/lib/game-state/mana-payment.ts` — the mana resolution engine
  (`parseManaCost`, `autoTapLands`, `smartAutoTap`).
* the replay buffer module (`ReplayBuffer`: `addAction`, `validateJoin`,
  `startReplay`, `seekTo`, `startFastForward`, `getProgress`).

JavaScript semantics modelled explicitly:

* JS `Partial<Record<color, number>>` objects are insertion-ordered key/value
  maps (`Object.entries` iterates keys in insertion order); they are embedded
  as association lists with update-in-place / append-on-new-key semantics.
* `String.prototype.split` with a captured separator group yields the maximal
  non-separator runs interleaved with singleton separators; empty pieces are
  filtered out by the source before use, so the embedding (`chunks`) produces
  only the non-empty pieces.
* `parseInt` is embedded as `jsParseInt` (whitespace skip, optional sign,
  a hex `0x` prefix, then the maximal digit run; `none` models `NaN`).
* `autoTapLands` iterates a `for...of` loop over `manaSources` while splicing
  the current element out of the array; the array iterator therefore skips the
  element that shifts into the removed slot.  `phase1` reproduces exactly this
  removal-plus-skip behaviour, and the mutated array (the caller's view after
  the call) is returned as the second component of `autoTapLands`.
* `Date.now()` is an explicit `now` parameter on every operation that reads
  the clock; timers (`setInterval` handles) have no synchronous effect on the
  embedded state and are outside the model, as is `console.warn` output.
-/

namespace PlanarNexus

/-- Color of mana (`type ManaColor` in mana-payment.ts). -/
inductive ManaColor where
  | white
  | blue
  | black
  | red
  | green
  | colorless
deriving DecidableEq, Repr

/-- The JS key name of a color, as produced by `Object.entries`. -/
def colorName : ManaColor → String
  | .white => "white"
  | .blue => "blue"
  | .black => "black"
  | .red => "red"
  | .green => "green"
  | .colorless => "colorless"

/-- `color.charAt(0).toUpperCase()` as used in the tap explanation strings. -/
def colorSymbolUpper : ManaColor → String
  | .white => "W"
  | .blue => "B"
  | .black => "B"
  | .red => "R"
  | .green => "G"
  | .colorless => "C"

/-- A land that can produce mana (`interface ManaSource`). -/
structure ManaSource where
  cardId : String
  cardName : String
  isTapped : Bool
  canProduceColor : Bool
  produces : List ManaColor
  isSnow : Bool
  producesColorless : Bool
deriving DecidableEq, Repr

/-- A player's mana pool (`ManaPool` from game-state types: per-color counts). -/
structure ManaPool where
  white : Int
  blue : Int
  black : Int
  red : Int
  green : Int
  colorless : Int
  generic : Int
deriving DecidableEq, Repr

/-- Insertion-ordered JS object `Partial<Record<ManaColor, number>>`. -/
abbrev ColorCounts := List (ManaColor × Nat)

/-- `rc[c] || 0` — lookup with default 0. -/
def lookupCount : ColorCounts → ManaColor → Nat
  | [], _ => 0
  | (d, v) :: rest, c => if d = c then v else lookupCount rest c

/-- `rc[c] = v` — JS property assignment: update the existing key in place,
append a fresh key at the end (insertion order). -/
def setCount : ColorCounts → ManaColor → Nat → ColorCounts
  | [], c, v => [(c, v)]
  | (d, w) :: rest, c, v =>
    if d = c then (c, v) :: rest else (d, w) :: setCount rest c v

/-- `rc[c] = (rc[c] || 0) + 1` as done for each color symbol in
`parseManaCost`. -/
def addColor (rc : ColorCounts) (c : ManaColor) : ColorCounts :=
  setCount rc c (lookupCount rc c + 1)

/-- A parsed mana payment request (`interface ManaPaymentRequest`). -/
structure ManaPaymentRequest where
  genericCost : Int
  requiredColors : ColorCounts
  totalCost : Int
  hasXCost : Bool
  xValue : Option Int
  isSnowCost : Bool
deriving DecidableEq, Repr

/-- Selected mana source (`interface ManaSourceSelection`). -/
structure ManaSourceSelection where
  cardId : String
  cardName : String
  color : ManaColor
  amount : Nat
deriving DecidableEq, Repr

/-- Auto-tap suggestion (`interface AutoTapSuggestion`). -/
structure AutoTapSuggestion where
  sources : List ManaSourceSelection
  canPay : Bool
  explanation : String
deriving DecidableEq, Repr

/-! ### `parseManaCost` -/

/-- Characters of the JS whitespace class skipped by `parseInt`. -/
def isJsWhitespace (c : Char) : Bool :=
  c = ' ' ∨ c = '\t' ∨ c = '\n' ∨ c = '\r' ∨ c = Char.ofNat 11 ∨ c = Char.ofNat 12

/-- Decimal digit value. -/
def decDigit? (c : Char) : Option Nat :=
  if c.isDigit then some (c.toNat - 48) else none

/-- Hexadecimal digit value. -/
def hexDigit? (c : Char) : Option Nat :=
  if c.isDigit then some (c.toNat - 48)
  else if 'a' ≤ c ∧ c ≤ 'f' then some (c.toNat - 97 + 10)
  else if 'A' ≤ c ∧ c ≤ 'F' then some (c.toNat - 65 + 10)
  else none

/-- Accumulate the maximal leading digit run. -/
def digitsValue (f : Char → Option Nat) (base : Nat) : List Char → Nat → Nat
  | [], acc => acc
  | c :: cs, acc =>
    match f c with
    | some d => digitsValue f base cs (acc * base + d)
    | none => acc

/-- Whether the first character is a digit for `f`. -/
def hasLeadingDigit (f : Char → Option Nat) : List Char → Bool
  | [] => false
  | c :: _ => (f c).isSome

/-- Whether the string starts with the `0x`/`0X` hex prefix. -/
def isHexPrefixed : List Char → Bool
  | c0 :: x :: _ => c0 = '0' ∧ (x = 'x' ∨ x = 'X')
  | _ => false

/-- JS `parseInt` after whitespace and sign handling: `0x` hex prefix, then
the maximal digit run; `none` models `NaN`. -/
def jsParseIntAfterSign (sign : Int) (s : List Char) : Option Int :=
  if isHexPrefixed s then
    if hasLeadingDigit hexDigit? (s.drop 2) then
      some (sign * (digitsValue hexDigit? 16 (s.drop 2) 0 : Nat))
    else none
  else if hasLeadingDigit decDigit? s then
    some (sign * (digitsValue decDigit? 10 s 0 : Nat))
  else none

/-- JS `parseInt(s)` with no radix argument: skip whitespace, optional sign,
then `jsParseIntAfterSign`. -/
def jsParseInt (s : List Char) : Option Int :=
  match s.dropWhile isJsWhitespace with
  | [] => jsParseIntAfterSign 1 []
  | c :: r =>
    if c = '-' then jsParseIntAfterSign (-1) r
    else if c = '+' then jsParseIntAfterSign 1 r
    else jsParseIntAfterSign 1 (c :: r)

/-- The separator class of `cost.split(/([WUBRGS])/g)`. -/
def isSepChar (c : Char) : Bool :=
  c = 'W' ∨ c = 'U' ∨ c = 'B' ∨ c = 'R' ∨ c = 'G' ∨ c = 'S'

/-- Wrap a reversed accumulated run as a piece (dropped when empty, matching
the source's `.filter(p => p.length > 0)`). -/
def pack (acc : List Char) : List (List Char) :=
  if acc = [] then [] else [acc.reverse]

/-- Worker for `chunks`; `acc` holds the current non-separator run reversed. -/
def chunksAux : List Char → List Char → List (List Char)
  | acc, [] => pack acc
  | acc, c :: cs =>
    if isSepChar c then pack acc ++ [c] :: chunksAux [] cs
    else chunksAux (c :: acc) cs

/-- `cost.split(/([WUBRGS])/g).filter(p => p.length > 0)`: maximal
non-separator runs and singleton separators, in order, empties dropped. -/
def chunks (s : List Char) : List (List Char) :=
  chunksAux [] s

/-- `manaCost.replace(/[{}]/g, '')`. -/
def stripBraces (s : List Char) : List Char :=
  s.filter (fun c => ¬ (c = '{' ∨ c = '}'))

/-- Normal form of `chunks` on a separator-free string: the single piece, or
nothing when empty (proof helper). -/
def packF (l : List Char) : List (List Char) :=
  if l = [] then [] else [l]

/-- Accumulator of the `for (const part of parts)` loop in `parseManaCost`. -/
structure ParseState where
  genericCost : Int
  requiredColors : ColorCounts
  hasXCost : Bool
deriving DecidableEq, Repr

/-- One iteration of the part loop of `parseManaCost`. -/
def parseStep (st : ParseState) (part : List Char) : ParseState :=
  if part = ['W'] then { st with requiredColors := addColor st.requiredColors .white }
  else if part = ['U'] then { st with requiredColors := addColor st.requiredColors .blue }
  else if part = ['B'] then { st with requiredColors := addColor st.requiredColors .black }
  else if part = ['R'] then { st with requiredColors := addColor st.requiredColors .red }
  else if part = ['G'] then { st with requiredColors := addColor st.requiredColors .green }
  else if part = ['S'] then st
  else if part = ['X'] ∨ part = ['Y'] then { st with hasXCost := true }
  else
    match jsParseInt part with
    | some n => { st with genericCost := st.genericCost + n }
    | none => st

/-- The empty request returned for a null or empty cost string. -/
def emptyRequest : ManaPaymentRequest :=
  { genericCost := 0, requiredColors := [], totalCost := 0,
    hasXCost := false, xValue := none, isSnowCost := false }

/-- Body of `parseManaCost` after the falsy check, on the brace-stripped
character list. -/
def parseCore (cost : List Char) : ManaPaymentRequest :=
  let st := (chunks cost).foldl parseStep ⟨0, [], false⟩
  let coloredCost : Nat := (st.requiredColors.map Prod.snd).sum
  { genericCost := st.genericCost,
    requiredColors := st.requiredColors,
    totalCost := st.genericCost + coloredCost,
    hasXCost := st.hasXCost,
    xValue := none,
    isSnowCost := 'S' ∈ cost }

/-- `parseManaCost(manaCost: string | null)`; `null` and `""` are both falsy
and short-circuit to the empty request. -/
def parseManaCost : Option String → ManaPaymentRequest
  | none => emptyRequest
  | some s => if s.data = [] then emptyRequest else parseCore (stripBraces s.data)

/-! ### `autoTapLands` -/

/-- The inner `for (const color of source.produces)` scan of `autoTapLands`
phase one: the first non-colorless color whose remaining need is positive. -/
def firstTappableColor (needed : ColorCounts) : List ManaColor → Option ManaColor
  | [] => none
  | c :: cs =>
    if c = .colorless then firstTappableColor needed cs
    else if 0 < lookupCount needed c then some c
    else firstTappableColor needed cs

/-- Which color (if any) phase one taps `s` for, given the remaining needs
(`continue` on sources with `canProduceColor` false). -/
def tapColor? (s : ManaSource) (needed : ColorCounts) : Option ManaColor :=
  if s.canProduceColor then firstTappableColor needed s.produces else none

/-- A one-mana selection for a colored tap. -/
def colorSelection (s : ManaSource) (c : ManaColor) : ManaSourceSelection :=
  { cardId := s.cardId, cardName := s.cardName, color := c, amount := 1 }

/-- `Tapped NAME for {SYMBOL}` explanation entry of phase one. -/
def tapExplanation (s : ManaSource) (c : ManaColor) : String :=
  "Tapped " ++ s.cardName ++ " for \x7b" ++ colorSymbolUpper c ++ "\x7d"

/-- Result of the colored phase of `autoTapLands`: the selections and
explanation entries in order, the remaining needs, and the contents of the
`manaSources` array after its in-place `splice` calls. -/
structure Phase1Result where
  selected : List ManaSourceSelection
  explanation : List String
  needed : ColorCounts
  sources : List ManaSource
deriving DecidableEq, Repr

/-- Phase one of `autoTapLands`: the `for...of` loop over `manaSources` that
taps sources for required colors and splices each tapped source out of the
array.  Splicing the current element shifts the next element into its slot, so
the JS array iterator skips that next element: after a tap the loop resumes two
positions further down (`skip` stays in the array unexamined). -/
def phase1 : List ManaSource → ColorCounts → Phase1Result
  | [], needed => ⟨[], [], needed, []⟩
  | s :: rest, needed =>
    match tapColor? s needed with
    | none =>
      let r := phase1 rest needed
      ⟨r.selected, r.explanation, r.needed, s :: r.sources⟩
    | some c =>
      let needed' := setCount needed c (lookupCount needed c - 1)
      match rest with
      | [] => ⟨[colorSelection s c], [tapExplanation s c], needed', []⟩
      | skip :: rest' =>
        let r := phase1 rest' needed'
        ⟨colorSelection s c :: r.selected, tapExplanation s c :: r.explanation,
          r.needed, skip :: r.sources⟩

/-- `Object.entries(remainingNeeded).filter(([,count]) => count > 0)
.map(([color]) => color)` — names of colors still needed, in key insertion
order. -/
def unmetColorNames (needed : ColorCounts) : List String :=
  (needed.filter (fun e => 0 < e.2)).map (fun e => colorName e.1)

/-- `source.producesColorless ? 'colorless' : source.produces[0] || 'colorless'`. -/
def genericColor (s : ManaSource) : ManaColor :=
  if s.producesColorless then .colorless else s.produces.headD .colorless

/-- Selection recorded by the generic phase for `s`. -/
def genericSelection (s : ManaSource) : ManaSourceSelection :=
  { cardId := s.cardId, cardName := s.cardName, color := genericColor s, amount := 1 }

/-- Explanation entry of the generic phase. -/
def genericExplanation (s : ManaSource) : String :=
  "Tapped " ++ s.cardName ++ " for colorless"

/-- Phase two of `autoTapLands`: pay `genericNeeded` generic mana from the
remaining sources in array order (one each, stopping once the need reaches
zero); returns the selections, explanation entries and the leftover need. -/
def phase2 : List ManaSource → Int → List ManaSourceSelection × List String × Int
  | [], g => ([], [], g)
  | s :: rest, g =>
    if g ≤ 0 then ([], [], g)
    else
      let r := phase2 rest (g - 1)
      (genericSelection s :: r.1, genericExplanation s :: r.2.1, r.2.2)

/-- `autoTapLands(manaPool, manaSources, request)`.  The first component is
the returned `AutoTapSuggestion`; the second is the contents of the caller's
`manaSources` array after the call (the function splices tapped sources out of
it in place).  The cloned `availablePool` of the source is written to but never
read, so it does not appear in the result. -/
def autoTapLands (manaPool : ManaPool) (manaSources : List ManaSource)
    (request : ManaPaymentRequest) : AutoTapSuggestion × List ManaSource :=
  let p1 := phase1 manaSources request.requiredColors
  let unmet := unmetColorNames p1.needed
  if unmet ≠ [] then
    ({ sources := [], canPay := false,
       explanation := "Cannot produce required colors: " ++ String.intercalate ", " unmet },
     p1.sources)
  else
    let p2 := phase2 p1.sources request.genericCost
    let canPay := p2.2.2 ≤ 0
    ({ sources := p1.selected ++ p2.1, canPay := canPay,
       explanation :=
         if canPay then String.intercalate "; " (p1.explanation ++ p2.2.1)
         else "Need " ++ toString p2.2.2 ++ " more mana" },
     p1.sources)

/-- The comparator of `smartAutoTap`'s `sort` call, as a boolean "does not
come after" relation: prioritized card ids first, then sources with
`producesColorless` first. -/
def smartLe (prioritizeSources : List String) (a b : ManaSource) : Bool :=
  let ap : Int := if prioritizeSources.contains a.cardId then 1 else 0
  let bp : Int := if prioritizeSources.contains b.cardId then 1 else 0
  if ap ≠ bp then bp - ap ≤ 0
  else
    let af : Int := if a.producesColorless then 1 else 0
    let bf : Int := if b.producesColorless then 1 else 0
    bf - af ≤ 0

/-- `[...manaSources].sort(comparator)` — JS `Array.prototype.sort` is a
stable sort of a fresh copy. -/
def sortedSources (prioritizeSources : List String) (l : List ManaSource) :
    List ManaSource :=
  l.mergeSort (smartLe prioritizeSources)

/-- `smartAutoTap(manaPool, manaSources, request, prioritizeSources)`:
delegates to `autoTapLands` on a freshly sorted copy of the sources. -/
def smartAutoTap (manaPool : ManaPool) (manaSources : List ManaSource)
    (request : ManaPaymentRequest) (prioritizeSources : List String) :
    AutoTapSuggestion × List ManaSource :=
  autoTapLands manaPool (sortedSources prioritizeSources manaSources) request

/-! ### Replay buffer -/

/-- Modelled from the spec: `GameAction` is defined in `action-broadcast.ts`,
which is not part of this corpus; the spec records its shape as
`{ id, type, playerId, data, timestamp }`.  The replay buffer treats it as an
opaque payload except for `id` (used only by `addActions` deduplication). -/
structure GameAction where
  id : String
  type : String
  playerId : String
  data : String
  timestamp : Int
deriving DecidableEq, Repr

/-- Buffered action with metadata (`interface BufferedAction`). -/
structure BufferedAction where
  action : GameAction
  receivedAt : Int
  applied : Bool
  appliedAt : Option Int
deriving DecidableEq, Repr

/-- Replay state (`type ReplayState`). -/
inductive ReplayState where
  | idle
  | playing
  | paused
  | fastForwarding
  | completed
deriving DecidableEq, Repr

/-- Replay event kinds (`ReplayEvent['type']`). -/
inductive ReplayEventType where
  | actionApplied
  | replayStarted
  | replayPaused
  | replayResumed
  | replayCompleted
  | fastForwardStarted
  | fastForwardEnded
deriving DecidableEq, Repr

/-- Replay event (`interface ReplayEvent`); `data` holds the `targetIndex`
payload of a fast-forward event when present. -/
structure ReplayEvent where
  type : ReplayEventType
  timestamp : Int
  data : Option Int
deriving DecidableEq, Repr

/-- Catch-up progress (`interface CatchUpProgress`); the two derived ratio
fields are exact rationals standing for the JS number arithmetic. -/
structure CatchUpProgress where
  totalActions : Nat
  appliedActions : Nat
  percentage : ℚ
  estimatedTimeRemaining : ℚ

/-- Join validation result (`interface JoinValidationResult`). -/
structure JoinValidationResult where
  canJoin : Bool
  reason : Option String
  actionCount : Nat
  gameAge : Int
  oldestActionTimestamp : Int
deriving DecidableEq, Repr

/-- `DEFAULT_MAX_BUFFER_SIZE`. -/
def DEFAULT_MAX_BUFFER_SIZE : Nat := 10000

/-- `DEFAULT_MAX_GAME_AGE` — two hours in milliseconds. -/
def DEFAULT_MAX_GAME_AGE : Int := 2 * 60 * 60 * 1000

/-- The synchronous state of a `ReplayBuffer` instance.  The timer handle
(`playbackInterval`) and the registered callbacks perform no synchronous state
change and are outside the model. -/
structure ReplayBuffer where
  actions : List BufferedAction
  maxBufferSize : Nat
  maxGameAge : Int
  gameStartTime : Int
  currentIndex : Int
  state : ReplayState
  speed : Nat
  events : List ReplayEvent
  startTimestamp : Option Int
deriving DecidableEq, Repr

namespace ReplayBuffer

/-- `new ReplayBuffer(options)`; absent options fall back to the defaults,
`gameStartTime` to `Date.now()`. -/
def mk' (maxBufferSize : Option Nat) (maxGameAge : Option Int)
    (gameStartTime : Option Int) (now : Int) : ReplayBuffer :=
  { actions := [],
    maxBufferSize := maxBufferSize.getD DEFAULT_MAX_BUFFER_SIZE,
    maxGameAge := maxGameAge.getD DEFAULT_MAX_GAME_AGE,
    gameStartTime := gameStartTime.getD now,
    currentIndex := 0,
    state := .idle,
    speed := 1,
    events := [],
    startTimestamp := none }

/-- `emitEvent`: push and keep only the last 100 events. -/
def pushEvent (events : List ReplayEvent) (e : ReplayEvent) : List ReplayEvent :=
  let es := events ++ [e]
  if 100 < es.length then es.drop 1 else es

/-- `addAction(action)`: append; if the buffer now exceeds `maxBufferSize`,
shift out the oldest entry and move the cursor down by one, clamped at 0. -/
def addAction (now : Int) (action : GameAction) (b : ReplayBuffer) : ReplayBuffer :=
  let acts := b.actions ++ [⟨action, now, false, none⟩]
  if b.maxBufferSize < acts.length then
    { b with actions := acts.drop 1, currentIndex := max 0 (b.currentIndex - 1) }
  else
    { b with actions := acts }

/-- `validateJoin()`. -/
def validateJoin (now : Int) (b : ReplayBuffer) : JoinValidationResult :=
  let gameAge := now - b.gameStartTime
  let actionCount := b.actions.length
  let oldestTs := ((b.actions.head?).map BufferedAction.receivedAt).getD b.gameStartTime
  if b.maxGameAge < gameAge then
    { canJoin := false, reason := some "Game is too old to join",
      actionCount := actionCount, gameAge := gameAge, oldestActionTimestamp := oldestTs }
  else if 500 < actionCount then
    { canJoin := true, reason := some "Warning: Late join to advanced game",
      actionCount := actionCount, gameAge := gameAge, oldestActionTimestamp := oldestTs }
  else
    { canJoin := true, reason := none,
      actionCount := actionCount, gameAge := gameAge, oldestActionTimestamp := oldestTs }

/-- `startReplay(fromIndex?)`: guarded no-op when the buffer is empty
(`console.warn` only); otherwise positions the cursor, enters `playing`,
stamps `startTimestamp` and emits `replay-started` (the playback timer itself
changes no synchronous state). -/
def startReplay (now : Int) (fromIndex : Option Int) (b : ReplayBuffer) : ReplayBuffer :=
  if b.actions.length = 0 then b
  else
    { b with currentIndex := fromIndex.getD 0,
             state := .playing,
             startTimestamp := some now,
             events := pushEvent b.events ⟨.replayStarted, now, none⟩ }

/-- Mark one action applied, as the `seekTo` batch loop does (an already
applied action is left untouched, keeping its original `appliedAt`). -/
def markApplied (now : Int) (a : BufferedAction) : BufferedAction :=
  if a.applied then a else { a with applied := true, appliedAt := some now }

/-- `seekTo(index)`: guarded no-op when the index is out of bounds; otherwise
synchronously marks actions 0..index applied and moves the cursor (the
playback timer restart has no synchronous effect; `state` is not written). -/
def seekTo (now : Int) (index : Int) (b : ReplayBuffer) : ReplayBuffer :=
  if index < 0 ∨ (b.actions.length : Int) ≤ index then b
  else
    let k := index.toNat
    { b with
      actions := (b.actions.take (k + 1)).map (markApplied now) ++ b.actions.drop (k + 1),
      currentIndex := index }

/-- `startFastForward(targetIndex?)`: guarded no-op when the target is at or
before the cursor; otherwise enters `fast-forwarding` at maximum speed and
emits `fast-forward-started` with the target. -/
def startFastForward (now : Int) (targetIndex : Option Int) (b : ReplayBuffer) :
    ReplayBuffer :=
  let target := targetIndex.getD ((b.actions.length : Int) - 1)
  if target ≤ b.currentIndex then b
  else
    { b with state := .fastForwarding,
             speed := 16,
             events := pushEvent b.events ⟨.fastForwardStarted, now, some target⟩ }

/-- JS truthiness of the optional `appliedAt` number (`0` is falsy). -/
def truthyTs : Option Int → Bool
  | none => false
  | some t => t ≠ 0

/-- `getProgress()`. -/
def getProgress (b : ReplayBuffer) : CatchUpProgress :=
  let appliedCount := b.actions.countP (fun a => a.applied)
  let total := b.actions.length
  let percentage : ℚ := if 0 < total then (appliedCount : ℚ) / (total : ℚ) * 100 else 0
  let appliedActions := b.actions.filter (fun a => truthyTs a.appliedAt)
  let estimatedTimeRemaining : ℚ :=
    if 1 < appliedActions.length then
      let firstApplied := ((appliedActions.head?.bind BufferedAction.appliedAt).getD 0 : ℚ)
      let lastApplied := ((appliedActions.getLast?.bind BufferedAction.appliedAt).getD 0 : ℚ)
      let timeSpan := lastApplied - firstApplied
      let avgTimePerAction := timeSpan / (appliedActions.length : ℚ)
      avgTimePerAction * ((total - appliedCount : Nat) : ℚ)
    else 0
  { totalActions := total, appliedActions := appliedCount,
    percentage := percentage, estimatedTimeRemaining := estimatedTimeRemaining }

end ReplayBuffer

/-- `addActions` of a list of timestamped actions in order (each call to
`addAction(action)` with its `Date.now()` value). -/
def wrapAction (p : Int × GameAction) : BufferedAction :=
  { action := p.2, receivedAt := p.1, applied := false, appliedAt := none }

/-- Iterated `addAction` calls. -/
def foldAdd (adds : List (Int × GameAction)) (b : ReplayBuffer) : ReplayBuffer :=
  adds.foldl (fun b p => ReplayBuffer.addAction p.1 p.2 b) b

/-! ### Concrete fixtures used by witnesses and counterexamples -/

/-- An empty mana pool. -/
def pool0 : ManaPool := ⟨0, 0, 0, 0, 0, 0, 0⟩

/-- An untapped Island as produced by `getManaSources` (note that
`canProduceColor` is false for basic lands there, since `produces` contains
`colorless`); it produces no black mana. -/
def islandSrc : ManaSource :=
  { cardId := "i1", cardName := "Island", isTapped := false, canProduceColor := false,
    produces := [.blue, .colorless], isSnow := false, producesColorless := true }

/-- A source that can produce colored mana (white) and is not a colorless
producer. -/
def srcWhite : ManaSource :=
  { cardId := "w1", cardName := "White Source", isTapped := false, canProduceColor := true,
    produces := [.white], isSnow := false, producesColorless := false }

/-- A colorless-only producer. -/
def srcColorlessOnly : ManaSource :=
  { cardId := "c1", cardName := "Wastes", isTapped := false, canProduceColor := false,
    produces := [.colorless], isSnow := false, producesColorless := true }

/-- Concrete game actions for replay buffer scenarios. -/
def actA : GameAction := ⟨"a", "cast", "p1", "", 1⟩

/-- Second concrete game action. -/
def actB : GameAction := ⟨"b", "cast", "p2", "", 2⟩

/-- Third concrete game action. -/
def actC : GameAction := ⟨"c", "cast", "p1", "", 3⟩

/-- A default-config buffer holding no actions. -/
def bufEmpty : ReplayBuffer := ReplayBuffer.mk' none none (some 0) 0

/-- A default-config buffer holding two unapplied actions. -/
def bufTwo : ReplayBuffer :=
  ReplayBuffer.addAction 2 actB (ReplayBuffer.addAction 1 actA
    (ReplayBuffer.mk' none none (some 0) 0))

/-- `bufTwo` after `seekTo(1)`: both actions applied. -/
def bufTwoApplied : ReplayBuffer := ReplayBuffer.seekTo 10 1 bufTwo

/-- A default-config buffer holding three unapplied actions. -/
def bufThree : ReplayBuffer :=
  ReplayBuffer.addAction 3 actC (ReplayBuffer.addAction 2 actB
    (ReplayBuffer.addAction 1 actA (ReplayBuffer.mk' none none (some 0) 0)))

/-- `bufThree` after `seekTo(2)`: all three actions applied. -/
def bufThreeApplied : ReplayBuffer := ReplayBuffer.seekTo 30 2 bufThree

/-! ## Helper lemmas: association lists and phase one of `autoTapLands` -/

theorem lookupCount_setCount_eq (rc : ColorCounts) (c : ManaColor) (v : Nat) :
    lookupCount (setCount rc c v) c = v := by
  induction rc with
  | nil => simp [setCount, lookupCount]
  | cons hd tl ih =>
    obtain ⟨d, w⟩ := hd
    by_cases h : d = c <;> simp [setCount, lookupCount, h, ih]

theorem lookupCount_setCount_ne (rc : ColorCounts) {c d : ManaColor} (v : Nat)
    (h : d ≠ c) : lookupCount (setCount rc d v) c = lookupCount rc c := by
  induction rc with
  | nil => simp [setCount, lookupCount, h]
  | cons hd tl ih =>
    obtain ⟨e, w⟩ := hd
    by_cases he : e = d
    · subst he; simp [setCount, lookupCount, h]
    · simp [setCount, lookupCount, he, ih]

theorem lookupCount_pos_mem (rc : ColorCounts) (c : ManaColor)
    (h : 0 < lookupCount rc c) : (c, lookupCount rc c) ∈ rc := by
  induction rc with
  | nil => simp [lookupCount] at h
  | cons hd tl ih =>
    obtain ⟨d, w⟩ := hd
    by_cases hd : d = c
    · subst hd; simp [lookupCount]
    · have hl : lookupCount ((d, w) :: tl) c = lookupCount tl c := by
        simp [lookupCount, hd]
      rw [hl] at h ⊢
      exact List.mem_cons_of_mem _ (ih h)

theorem firstTappableColor_spec (needed : ColorCounts) (l : List ManaColor)
    (c : ManaColor) (h : firstTappableColor needed l = some c) :
    c ∈ l ∧ 0 < lookupCount needed c := by
  induction l with
  | nil => simp [firstTappableColor] at h
  | cons d rest ih =>
    by_cases hd : d = ManaColor.colorless
    · simp [firstTappableColor, hd] at h
      have := ih h
      exact ⟨List.mem_cons_of_mem _ this.1, this.2⟩
    · by_cases hp : 0 < lookupCount needed d
      · simp [firstTappableColor, hd, hp] at h
        subst h
        exact ⟨List.mem_cons_self _ _, hp⟩
      · simp [firstTappableColor, hd, hp] at h
        have := ih h
        exact ⟨List.mem_cons_of_mem _ this.1, this.2⟩

theorem tapColor?_spec (s : ManaSource) (needed : ColorCounts) (c : ManaColor)
    (h : tapColor? s needed = some c) :
    c ∈ s.produces ∧ 0 < lookupCount needed c := by
  unfold tapColor? at h
  by_cases hc : s.canProduceColor = true
  · rw [if_pos hc] at h
    exact firstTappableColor_spec _ _ _ h
  · rw [if_neg hc] at h
    exact absurd h (by simp)

theorem phase1_needed_ge (srcs : List ManaSource) (needed : ColorCounts)
    (c : ManaColor) :
    lookupCount needed c ≤
      lookupCount (phase1 srcs needed).needed c +
        srcs.countP (fun s => decide (c ∈ s.produces)) := by
  induction srcs, needed using phase1.induct with
  | case1 needed => simp [phase1]
  | case2 s rest needed htap ih =>
    simp only [phase1, htap]
    rw [List.countP_cons]
    omega
  | case3 s needed d htap =>
    simp only [phase1, htap]
    by_cases hdc : d = c
    · subst hdc
      have hm := tapColor?_spec s needed d htap
      rw [lookupCount_setCount_eq, List.countP_cons]
      simp [hm.1]
      omega
    · rw [lookupCount_setCount_ne _ _ hdc]
      omega
  | case4 s needed d htap needed' skip rest' ih =>
    simp only [phase1, htap]
    unfold needed' at ih
    by_cases hdc : d = c
    · subst hdc
      have hm := tapColor?_spec s needed d htap
      rw [lookupCount_setCount_eq] at ih
      rw [List.countP_cons, List.countP_cons]
      simp [hm.1]
      omega
    · rw [lookupCount_setCount_ne _ _ hdc] at ih
      rw [List.countP_cons, List.countP_cons]
      omega

theorem phase1_selected_cardId_mem (srcs : List ManaSource) (needed : ColorCounts)
    (sel : ManaSourceSelection) (h : sel ∈ (phase1 srcs needed).selected) :
    sel.cardId ∈ srcs.map ManaSource.cardId := by
  induction srcs, needed using phase1.induct with
  | case1 needed => simp [phase1] at h
  | case2 s rest needed htap ih =>
    simp only [phase1, htap] at h
    exact List.mem_cons_of_mem _ (ih h)
  | case3 s needed d htap =>
    simp only [phase1, htap] at h
    simp at h
    subst h
    simp [colorSelection]
  | case4 s needed d htap needed' skip rest' ih =>
    simp only [phase1, htap] at h
    unfold needed' at ih
    rcases List.mem_cons.mp h with h | h
    · subst h
      simp [colorSelection]
    · have := ih h
      simp at this ⊢
      tauto

theorem phase1_sources_mem (srcs : List ManaSource) (needed : ColorCounts)
    (x : ManaSource) (h : x ∈ (phase1 srcs needed).sources) : x ∈ srcs := by
  induction srcs, needed using phase1.induct with
  | case1 needed => simp [phase1] at h
  | case2 s rest needed htap ih =>
    simp only [phase1, htap] at h
    rcases List.mem_cons.mp h with h | h
    · subst h; exact List.mem_cons_self _ _
    · exact List.mem_cons_of_mem _ (ih h)
  | case3 s needed d htap =>
    simp [phase1, htap] at h
  | case4 s needed d htap needed' skip rest' ih =>
    simp only [phase1, htap] at h
    unfold needed' at ih
    rcases List.mem_cons.mp h with h | h
    · subst h; simp
    · have := ih h
      simp at this ⊢
      tauto

theorem phase1_selected_sources_disjoint (srcs : List ManaSource)
    (needed : ColorCounts) (hnd : (srcs.map ManaSource.cardId).Nodup)
    (sel : ManaSourceSelection) (hsel : sel ∈ (phase1 srcs needed).selected) :
    sel.cardId ∉ (phase1 srcs needed).sources.map ManaSource.cardId := by
  induction srcs, needed using phase1.induct with
  | case1 needed => simp [phase1] at hsel
  | case2 s rest needed htap ih =>
    simp only [phase1, htap] at hsel ⊢
    simp only [List.map_cons, List.nodup_cons] at hnd
    intro hmem
    rcases List.mem_cons.mp hmem with h | h
    · exact hnd.1 (h ▸ phase1_selected_cardId_mem rest needed sel hsel)
    · exact ih hnd.2 hsel h
  | case3 s needed d htap =>
    simp only [phase1, htap] at hsel ⊢
    simp
  | case4 s needed d htap needed' skip rest' ih =>
    simp only [phase1, htap] at hsel ⊢
    unfold needed' at ih
    simp only [List.map_cons, List.nodup_cons] at hnd
    have hndr : (rest'.map ManaSource.cardId).Nodup := hnd.2.2
    intro hmem
    rw [List.map_cons] at hmem
    rcases List.mem_cons.mp hsel with h | h
    · subst h
      have hsid : (colorSelection s d).cardId = s.cardId := rfl
      rw [hsid] at hmem
      rcases List.mem_cons.mp hmem with h2 | h2
      · exact hnd.1 (by rw [h2]; exact List.mem_cons_self _ _)
      · rcases List.mem_map.mp h2 with ⟨y, hy, hyid⟩
        have hyr : y ∈ rest' := phase1_sources_mem _ _ _ hy
        exact hnd.1 (List.mem_cons_of_mem _ (hyid ▸ List.mem_map_of_mem _ hyr))
    · rcases List.mem_cons.mp hmem with h2 | h2
      · have hm := phase1_selected_cardId_mem rest' _ sel h
        exact hnd.2.1 (h2 ▸ hm)
      · exact ih hndr h h2

theorem phase2_fst (srcs : List ManaSource) (g : Int) :
    (phase2 srcs g).1 = (srcs.take g.toNat).map genericSelection := by
  induction srcs generalizing g with
  | nil => simp [phase2]
  | cons s rest ih =>
    by_cases hg : g ≤ 0
    · have ht : g.toNat = 0 := by omega
      rw [ht]
      simp [phase2, hg]
    · have h1 : g.toNat = (g - 1).toNat + 1 := by omega
      rw [h1]
      simp only [phase2, if_neg hg, List.take_succ_cons, List.map_cons]
      rw [ih]

theorem autoTapLands_snd (pool : ManaPool) (srcs : List ManaSource)
    (req : ManaPaymentRequest) :
    (autoTapLands pool srcs req).2 = (phase1 srcs req.requiredColors).sources := by
  simp only [autoTapLands]
  split <;> rfl

/-! ## Helper lemmas: `parseManaCost` tokenization -/

theorem jsParseIntAfterSign_eq_none (sign : Int) (s : List Char)
    (h : ∀ c ∈ s, c.isDigit = false) : jsParseIntAfterSign sign s = none := by
  cases s with
  | nil => rfl
  | cons a t =>
    have ha : a.isDigit = false := h a (List.mem_cons_self _ _)
    have ha0 : a ≠ '0' := by
      intro h0
      rw [h0] at ha
      simp [Char.isDigit] at ha
    have hhex : isHexPrefixed (a :: t) = false := by
      cases t with
      | nil => rfl
      | cons x r => simp [isHexPrefixed, ha0]
    have hlead : hasLeadingDigit decDigit? (a :: t) = false := by
      simp [hasLeadingDigit, decDigit?, ha]
    simp [jsParseIntAfterSign, hhex, hlead]

theorem jsParseInt_eq_none (s : List Char) (h : ∀ c ∈ s, c.isDigit = false) :
    jsParseInt s = none := by
  have hsub : ∀ c ∈ s.dropWhile isJsWhitespace, c.isDigit = false := fun c hc =>
    h c ((s.dropWhile_sublist isJsWhitespace).mem hc)
  rw [jsParseInt.eq_def]
  split
  · exact jsParseIntAfterSign_eq_none _ _ (by intro c hc; simp at hc)
  · rename_i c r heq
    rw [heq] at hsub
    by_cases hm : c = '-'
    · rw [if_pos hm]
      exact jsParseIntAfterSign_eq_none _ _ fun d hd =>
        hsub d (List.mem_cons_of_mem _ hd)
    · rw [if_neg hm]
      by_cases hp : c = '+'
      · rw [if_pos hp]
        exact jsParseIntAfterSign_eq_none _ _ fun d hd =>
          hsub d (List.mem_cons_of_mem _ hd)
      · rw [if_neg hp]
        exact jsParseIntAfterSign_eq_none _ _ hsub

theorem parseStep_unknown (st : ParseState) (t : List Char)
    (hsep : ∀ c ∈ t, isSepChar c = false)
    (hdig : ∀ c ∈ t, c.isDigit = false)
    (hX : t ≠ ['X']) (hY : t ≠ ['Y']) : parseStep st t = st := by
  have hne : ∀ c : Char, isSepChar c = true → t ≠ [c] := by
    intro c hc ht
    rw [ht] at hsep
    have := hsep c (List.mem_singleton_self _)
    rw [this] at hc
    exact Bool.false_ne_true hc
  have hW := hne 'W' (by decide)
  have hU := hne 'U' (by decide)
  have hB := hne 'B' (by decide)
  have hR := hne 'R' (by decide)
  have hG := hne 'G' (by decide)
  have hS := hne 'S' (by decide)
  simp only [parseStep, if_neg hW, if_neg hU, if_neg hB, if_neg hR, if_neg hG,
    if_neg hS]
  rw [if_neg (by simp [hX, hY])]
  rw [jsParseInt_eq_none t hdig]

theorem pack_eq_packF (acc : List Char) : pack acc = packF acc.reverse := by
  by_cases h : acc = []
  · simp [pack, packF, h]
  · simp [pack, packF, h]

theorem chunksAux_all_nonsep (t : List Char) (ht : ∀ c ∈ t, isSepChar c = false) :
    ∀ acc, chunksAux acc t = packF (acc.reverse ++ t) := by
  induction t with
  | nil =>
    intro acc
    simp only [chunksAux, List.append_nil]
    exact pack_eq_packF acc
  | cons c t' ih =>
    intro acc
    have hc : isSepChar c = false := ht c (List.mem_cons_self _ _)
    simp only [chunksAux, hc, Bool.false_eq_true, if_false]
    rw [ih (fun d hd => ht d (List.mem_cons_of_mem _ hd)) (c :: acc)]
    simp

theorem chunks_all_nonsep (t : List Char) (ht : ∀ c ∈ t, isSepChar c = false) :
    chunks t = packF t := by
  rw [chunks, chunksAux_all_nonsep t ht []]
  simp

theorem chunksAux_append_endsep (c : Char) (hc : isSepChar c = true)
    (l ys : List Char) :
    ∀ acc, chunksAux acc ((l ++ [c]) ++ ys) =
      chunksAux acc (l ++ [c]) ++ chunksAux [] ys := by
  induction l with
  | nil =>
    intro acc
    simp only [List.nil_append, List.singleton_append, chunksAux, hc, if_true]
    simp [pack]
  | cons d l' ih =>
    intro acc
    by_cases hd : isSepChar d = true
    · simp only [List.cons_append, chunksAux, hd, if_true, List.append_eq]
      rw [ih []]
      simp
    · simp only [List.cons_append, chunksAux, hd, Bool.false_eq_true, if_false]
      exact ih (d :: acc)

theorem chunksAux_nonsep_append (t : List Char)
    (ht : ∀ c ∈ t, isSepChar c = false) (ys : List Char)
    (hy : ys = [] ∨ ∃ c r, ys = c :: r ∧ isSepChar c = true) :
    ∀ acc, chunksAux acc (t ++ ys) = chunksAux acc t ++ chunksAux [] ys := by
  induction t with
  | nil =>
    intro acc
    rcases hy with hy | ⟨c, r, hy, hc⟩
    · simp [hy, chunksAux, pack]
    · simp only [hy, List.nil_append, chunksAux, hc, if_true]
      simp [pack]
  | cons d t' ih =>
    intro acc
    have hd : isSepChar d = false := ht d (List.mem_cons_self _ _)
    simp only [List.cons_append, chunksAux, hd, Bool.false_eq_true, if_false]
    exact ih (fun e he => ht e (List.mem_cons_of_mem _ he)) (d :: acc)

theorem foldl_parseStep_unknown (t : List Char)
    (hsep : ∀ c ∈ t, isSepChar c = false)
    (hdig : ∀ c ∈ t, c.isDigit = false)
    (hX : t ≠ ['X']) (hY : t ≠ ['Y']) :
    ∀ z : ParseState, (chunks t).foldl parseStep z = z := by
  intro z
  rw [chunks_all_nonsep t hsep]
  unfold packF
  split
  · rfl
  · simp only [List.foldl_cons, List.foldl_nil]
    exact parseStep_unknown z t hsep hdig hX hY

theorem stripBraces_append (a b : List Char) :
    stripBraces (a ++ b) = stripBraces a ++ stripBraces b := by
  simp [stripBraces]

theorem stripBraces_open (l : List Char) : stripBraces ('{' :: l) = stripBraces l := by
  simp [stripBraces]

theorem stripBraces_close (l : List Char) : stripBraces ('}' :: l) = stripBraces l := by
  simp [stripBraces]

theorem stripBraces_eq_self (t : List Char)
    (h : ∀ c ∈ t, c ≠ '{' ∧ c ≠ '}') : stripBraces t = t := by
  rw [stripBraces, List.filter_eq_self]
  intro c hc
  simp [(h c hc).1, (h c hc).2]

/-! ## Claim theorems: mana resolution engine -/

/-- C1: if some required color's requirement cannot be fully satisfied by the
available sources (fewer sources produce that color than are required),
`autoTapLands` fails entirely: `canPay` is false, the `sources` list is empty
(no partial payment), and the explanation lists every color still unmet after
the greedy phase (in particular the unsatisfiable one); with zero sources
producing black and a cost of `\x7bB\x7d`, the explanation names "black". -/
theorem autoTap_fails_entirely_on_unmet_color :
    (∀ (pool : ManaPool) (srcs : List ManaSource) (req : ManaPaymentRequest)
        (c : ManaColor),
      srcs.countP (fun s => decide (c ∈ s.produces)) <
          lookupCount req.requiredColors c →
      (autoTapLands pool srcs req).1.canPay = false ∧
      (autoTapLands pool srcs req).1.sources = [] ∧
      colorName c ∈ unmetColorNames (phase1 srcs req.requiredColors).needed ∧
      (autoTapLands pool srcs req).1.explanation =
        "Cannot produce required colors: " ++
          String.intercalate ", "
            (unmetColorNames (phase1 srcs req.requiredColors).needed)) ∧
    (autoTapLands pool0 [islandSrc] (parseManaCost (some "{B}"))).1 =
      { sources := [], canPay := false,
        explanation := "Cannot produce required colors: black" } := by
  constructor
  · intro pool srcs req c hc
    have hge := phase1_needed_ge srcs req.requiredColors c
    have hpos : 0 < lookupCount (phase1 srcs req.requiredColors).needed c := by omega
    have hmem := lookupCount_pos_mem _ _ hpos
    have hunmet : colorName c ∈
        unmetColorNames (phase1 srcs req.requiredColors).needed := by
      unfold unmetColorNames
      exact List.mem_map_of_mem _ (List.mem_filter.mpr ⟨hmem, by simpa using hpos⟩)
    have hne : unmetColorNames (phase1 srcs req.requiredColors).needed ≠ [] :=
      List.ne_nil_of_mem hunmet
    refine ⟨?_, ?_, hunmet, ?_⟩ <;>
      simp only [autoTapLands, if_pos hne]
  · decide

/-- Witness for C1: a pool with zero sources producing `black` (a lone Island)
and a cost requiring `\x7bB\x7d`. -/
theorem autoTap_fails_entirely_on_unmet_color_witness :
    (autoTapLands pool0 [islandSrc] (parseManaCost (some "{B}"))).1.canPay = false ∧
    (autoTapLands pool0 [islandSrc] (parseManaCost (some "{B}"))).1.sources = [] ∧
    colorName .black ∈
      unmetColorNames
        (phase1 [islandSrc] (parseManaCost (some "{B}")).requiredColors).needed ∧
    (autoTapLands pool0 [islandSrc] (parseManaCost (some "{B}"))).1.explanation =
      "Cannot produce required colors: " ++
        String.intercalate ", "
          (unmetColorNames
            (phase1 [islandSrc] (parseManaCost (some "{B}")).requiredColors).needed) :=
  autoTap_fails_entirely_on_unmet_color.1 pool0 [islandSrc]
    (parseManaCost (some "{B}")) .black (by decide)

/-- C5 counterexample: with a colored producer first and a colorless-only
producer second in the array, a purely generic cost `\x7b1\x7d` is paid by
tapping the colored producer (`w1`), not the colorless-only one — the generic
phase has no colorless-only preference. -/
theorem autoTap_generic_no_colorless_only_preference :
    ((autoTapLands pool0 [srcWhite, srcColorlessOnly]
        (parseManaCost (some "{1}"))).1.sources.map ManaSourceSelection.cardId
      = ["w1"]) ∧
    (autoTapLands pool0 [srcWhite, srcColorlessOnly]
        (parseManaCost (some "{1}"))).1.canPay = true := by
  decide

/-- C5 amended: after the colored phase succeeds, `autoTapLands` pays the
generic cost from the leftover sources in plain array order (the first
`genericCost` survivors), with no colorless-only preference; the only
preference in the system is `smartAutoTap`'s pre-sort, which orders sources
with `producesColorless` (not colorless-only ones) first and then delegates to
`autoTapLands`. -/
theorem autoTap_generic_pays_in_array_order :
    (∀ (pool : ManaPool) (srcs : List ManaSource) (req : ManaPaymentRequest),
      unmetColorNames (phase1 srcs req.requiredColors).needed = [] →
      (autoTapLands pool srcs req).1.sources =
        (phase1 srcs req.requiredColors).selected ++
          ((phase1 srcs req.requiredColors).sources.take req.genericCost.toNat).map
            genericSelection) ∧
    (∀ (pool : ManaPool) (srcs : List ManaSource) (req : ManaPaymentRequest)
        (pr : List String),
      smartAutoTap pool srcs req pr =
        autoTapLands pool (sortedSources pr srcs) req) := by
  constructor
  · intro pool srcs req hempty
    have hne : ¬ unmetColorNames (phase1 srcs req.requiredColors).needed ≠ [] := by
      simp [hempty]
    simp only [autoTapLands, if_neg hne]
    exact congrArg _ (phase2_fst _ _)
  · intro pool srcs req pr
    rfl

/-- Witness for C5 amended: generic cost `\x7b1\x7d` against
`[srcWhite, srcColorlessOnly]`. -/
theorem autoTap_generic_pays_in_array_order_witness :
    (autoTapLands pool0 [srcWhite, srcColorlessOnly]
        (parseManaCost (some "{1}"))).1.sources =
      (phase1 [srcWhite, srcColorlessOnly]
          (parseManaCost (some "{1}")).requiredColors).selected ++
        ((phase1 [srcWhite, srcColorlessOnly]
            (parseManaCost (some "{1}")).requiredColors).sources.take
          (parseManaCost (some "{1}")).genericCost.toNat).map genericSelection :=
  autoTap_generic_pays_in_array_order.1 pool0 [srcWhite, srcColorlessOnly]
    (parseManaCost (some "{1}")) (by decide)

/-- C7: `parseManaCost("\x7b2\x7d\x7bW\x7d\x7bW\x7d")` yields generic cost 2,
required colors exactly `white: 2`, total cost 4, no X cost, not snow. -/
theorem parseManaCost_2WW :
    parseManaCost (some "{2}{W}{W}") =
      { genericCost := 2, requiredColors := [(.white, 2)], totalCost := 4,
        hasXCost := false, xValue := none, isSnowCost := false } := by
  decide

/-- C9: `autoTapLands` splices every source tapped in the colored phase out of
the caller's `manaSources` array: the array contents after the call are
exactly the phase-one survivors, and (for pairwise distinct card ids) no
phase-one-tapped source remains in it; `smartAutoTap` shields its own caller
only because it passes a freshly sorted copy to `autoTapLands`. -/
theorem autoTap_mutates_sources_array :
    (∀ (pool : ManaPool) (srcs : List ManaSource) (req : ManaPaymentRequest),
      (autoTapLands pool srcs req).2 = (phase1 srcs req.requiredColors).sources) ∧
    (∀ (pool : ManaPool) (srcs : List ManaSource) (req : ManaPaymentRequest),
      (srcs.map ManaSource.cardId).Nodup →
      ∀ sel ∈ (phase1 srcs req.requiredColors).selected,
        sel.cardId ∉ ((autoTapLands pool srcs req).2.map ManaSource.cardId)) ∧
    (∀ (pool : ManaPool) (srcs : List ManaSource) (req : ManaPaymentRequest)
        (pr : List String),
      smartAutoTap pool srcs req pr =
        autoTapLands pool (sortedSources pr srcs) req) := by
  refine ⟨autoTapLands_snd, ?_, ?_⟩
  · intro pool srcs req hnd sel hsel
    rw [autoTapLands_snd]
    exact phase1_selected_sources_disjoint srcs _ hnd sel hsel
  · intro pool srcs req pr
    rfl

/-- Witness for C9: tapping the white source for `\x7bW\x7d` removes card
`w1` from the caller's array. -/
theorem autoTap_mutates_sources_array_witness :
    ("w1" : String) ∉ ((autoTapLands pool0 [srcWhite, srcColorlessOnly]
        (parseManaCost (some "{W}"))).2.map ManaSource.cardId) :=
  autoTap_mutates_sources_array.2.1 pool0 [srcWhite, srcColorlessOnly]
    (parseManaCost (some "{W}")) (by decide)
    (colorSelection srcWhite .white) (by decide)

/-- C6 counterexample: the unknown token `\x7bQ\x7d` does not leave the result
unchanged — braces are stripped before tokenizing, so `Q` merges with the
adjacent `2` into the part `Q2`, whose `parseInt` is `NaN`: `\x7bQ\x7d\x7b2\x7d`
parses to generic cost 0, while removing the unknown token gives 2. -/
theorem parseManaCost_unknown_token_changes_result :
    (parseManaCost (some "{Q}{2}")).genericCost = 0 ∧
    (parseManaCost (some "{2}")).genericCost = 2 := by
  decide

/-- C6 amended: `parseManaCost` is total and lenient, and an unknown token
contributes nothing provided it cannot merge with a neighbouring token: for a
token with no digit and no W/U/B/R/G/S character (and other than exactly `X`
or `Y`), whose neighbourhood after brace stripping ends (on the left) and
starts (on the right) with a color/snow symbol or the string boundary,
removing the token does not change the parse result at all.  Without the
adjacency proviso the merged part can change the result, as the
counterexample shows. -/
theorem parseManaCost_ignores_isolated_unknown_token :
    ∀ (p q t : List Char),
      (∀ c ∈ t, isSepChar c = false ∧ c.isDigit = false ∧ c ≠ '{' ∧ c ≠ '}') →
      t ≠ ['X'] → t ≠ ['Y'] →
      (stripBraces p = [] ∨
        ∃ l c, stripBraces p = l ++ [c] ∧ isSepChar c = true) →
      (stripBraces q = [] ∨
        ∃ c r, stripBraces q = c :: r ∧ isSepChar c = true) →
      parseManaCost (some ⟨p ++ '{' :: (t ++ '}' :: q)⟩) =
        parseManaCost (some ⟨p ++ q⟩) := by
  intro p q t ht hX hY hp hq
  have htsep : ∀ c ∈ t, isSepChar c = false := fun c hc => (ht c hc).1
  have htdig : ∀ c ∈ t, c.isDigit = false := fun c hc => (ht c hc).2.1
  have htbr : ∀ c ∈ t, c ≠ '{' ∧ c ≠ '}' := fun c hc => (ht c hc).2.2
  have hlne : (p ++ '{' :: (t ++ '}' :: q)) ≠ [] := by simp
  have hstripL : stripBraces (p ++ '{' :: (t ++ '}' :: q)) =
      stripBraces p ++ (t ++ stripBraces q) := by
    rw [stripBraces_append, stripBraces_open, stripBraces_append, stripBraces_close,
        stripBraces_eq_self t htbr]
  have hSnot : ('S' : Char) ∉ t := by
    intro hS
    have := htsep 'S' hS
    simp [isSepChar] at this
  have hid : ∀ z : ParseState, (chunksAux [] t).foldl parseStep z = z :=
    foldl_parseStep_unknown t htsep htdig hX hY
  have hL : parseManaCost (some ⟨p ++ '{' :: (t ++ '}' :: q)⟩) =
      parseCore (stripBraces p ++ (t ++ stripBraces q)) := by
    show (if (p ++ '{' :: (t ++ '}' :: q)) = ([] : List Char) then emptyRequest
          else parseCore (stripBraces (p ++ '{' :: (t ++ '}' :: q)))) = _
    rw [if_neg hlne, hstripL]
  by_cases hpq : (p ++ q : List Char) = []
  · obtain ⟨hp0, hq0⟩ := List.append_eq_nil.mp hpq
    subst hp0; subst hq0
    have hR : parseManaCost (some (⟨[] ++ []⟩ : String)) = emptyRequest := rfl
    rw [hL, hR]
    show parseCore (stripBraces [] ++ (t ++ stripBraces [])) = emptyRequest
    have hsb : stripBraces ([] : List Char) = [] := rfl
    rw [hsb]
    simp only [List.nil_append, List.append_nil]
    simp only [parseCore, chunks]
    rw [hid ⟨0, [], false⟩]
    simp [emptyRequest, hSnot]
  · have hR : parseManaCost (some ⟨p ++ q⟩) =
        parseCore (stripBraces p ++ stripBraces q) := by
      show (if (p ++ q : List Char) = [] then emptyRequest
            else parseCore (stripBraces (p ++ q))) = _
      rw [if_neg hpq, stripBraces_append]
    have hfold : (chunks (stripBraces p ++ (t ++ stripBraces q))).foldl parseStep
          ⟨0, [], false⟩ =
        (chunks (stripBraces p ++ stripBraces q)).foldl parseStep ⟨0, [], false⟩ := by
      rcases hp with hsp | ⟨l, c, hsp, hc⟩
      · rw [hsp]
        simp only [List.nil_append]
        have h1 : chunks (t ++ stripBraces q) =
            chunksAux [] t ++ chunksAux [] (stripBraces q) := by
          rw [chunks, chunksAux_nonsep_append t htsep (stripBraces q) hq []]
        rw [h1, List.foldl_append, hid]
        rfl
      · rw [hsp]
        have h1 : chunks ((l ++ [c]) ++ (t ++ stripBraces q)) =
            chunksAux [] (l ++ [c]) ++
              (chunksAux [] t ++ chunksAux [] (stripBraces q)) := by
          rw [chunks, chunksAux_append_endsep c hc l (t ++ stripBraces q) [],
              chunksAux_nonsep_append t htsep (stripBraces q) hq []]
        have h2 : chunks ((l ++ [c]) ++ stripBraces q) =
            chunksAux [] (l ++ [c]) ++ chunksAux [] (stripBraces q) := by
          rw [chunks, chunksAux_append_endsep c hc l (stripBraces q) []]
        rw [h1, h2, List.foldl_append, List.foldl_append, List.foldl_append, hid]
    have hsnowB : decide ('S' ∈ stripBraces p ++ (t ++ stripBraces q)) =
        decide ('S' ∈ stripBraces p ++ stripBraces q) := by
      apply decide_eq_decide.mpr
      simp only [List.mem_append]
      constructor
      · rintro (h | h | h)
        · exact Or.inl h
        · exact absurd h hSnot
        · exact Or.inr h
      · rintro (h | h)
        · exact Or.inl h
        · exact Or.inr (Or.inr h)
    rw [hL, hR]
    simp only [parseCore]
    rw [hfold, hsnowB]

/-- Witness for C6 amended: removing the unknown token `\x7bQ\x7d` between
`\x7bW\x7d` and `\x7bU\x7d` leaves the parse unchanged. -/
theorem parseManaCost_ignores_isolated_unknown_token_witness :
    parseManaCost (some ⟨"\x7bW\x7d".data ++ '{' :: ("Q".data ++ '}' :: "\x7bU\x7d".data)⟩) =
      parseManaCost (some ⟨"\x7bW\x7d".data ++ "\x7bU\x7d".data⟩) :=
  parseManaCost_ignores_isolated_unknown_token "\x7bW\x7d".data "\x7bU\x7d".data "Q".data
    (by decide) (by decide) (by decide)
    (Or.inr ⟨[], 'W', by decide, by decide⟩)
    (Or.inr ⟨'U', [], by decide, by decide⟩)

/-! ## Helper lemmas: replay buffer -/

theorem addAction_maxBufferSize (now : Int) (a : GameAction) (b : ReplayBuffer) :
    (ReplayBuffer.addAction now a b).maxBufferSize = b.maxBufferSize := by
  simp only [ReplayBuffer.addAction]
  split <;> rfl

theorem foldAdd_actions (adds : List (Int × GameAction)) :
    ∀ b : ReplayBuffer, b.actions.length ≤ b.maxBufferSize →
      (foldAdd adds b).actions =
        (b.actions ++ adds.map wrapAction).drop
          (b.actions.length + adds.length - b.maxBufferSize) ∧
      (foldAdd adds b).maxBufferSize = b.maxBufferSize := by
  induction adds with
  | nil =>
    intro b hb
    constructor
    · have h0 : b.actions.length - b.maxBufferSize = 0 := by omega
      simp [foldAdd, h0]
    · rfl
  | cons ad rest ih =>
    intro b hb
    have hstep : foldAdd (ad :: rest) b =
        foldAdd rest (ReplayBuffer.addAction ad.1 ad.2 b) := rfl
    by_cases hover : b.maxBufferSize < b.actions.length + 1
    · have hL : b.actions.length = b.maxBufferSize := by omega
      have hb' : (ReplayBuffer.addAction ad.1 ad.2 b).actions =
          (b.actions ++ [wrapAction ad]).drop 1 := by
        simp only [ReplayBuffer.addAction]
        rw [if_pos (by simp; omega)]
        rfl
      have hb'len : (ReplayBuffer.addAction ad.1 ad.2 b).actions.length =
          b.maxBufferSize := by
        rw [hb']
        simp
        omega
      have hmax := addAction_maxBufferSize ad.1 ad.2 b
      obtain ⟨ihact, ihmax⟩ := ih (ReplayBuffer.addAction ad.1 ad.2 b)
        (by rw [hb'len, hmax])
      rw [hstep]
      constructor
      · rw [ihact, hb'len, hmax, hb']
        have hcount : b.maxBufferSize + rest.length - b.maxBufferSize =
            rest.length := by omega
        have hcount2 : b.actions.length + (ad :: rest).length - b.maxBufferSize =
            rest.length + 1 := by simp; omega
        rw [hcount, hcount2]
        have hassoc : b.actions ++ (ad :: rest).map wrapAction =
            (b.actions ++ [wrapAction ad]) ++ rest.map wrapAction := by
          simp
        rw [hassoc]
        have hkey : List.drop 1 ((b.actions ++ [wrapAction ad]) ++
              List.map wrapAction rest) =
            List.drop 1 (b.actions ++ [wrapAction ad]) ++ List.map wrapAction rest :=
          List.drop_append_of_le_length (by simp)
        rw [← hkey, List.drop_drop, Nat.add_comm 1 rest.length]
      · rw [ihmax, hmax]
    · have hb' : (ReplayBuffer.addAction ad.1 ad.2 b).actions =
          b.actions ++ [wrapAction ad] := by
        simp only [ReplayBuffer.addAction]
        rw [if_neg (by simp; omega)]
        rfl
      have hb'len : (ReplayBuffer.addAction ad.1 ad.2 b).actions.length =
          b.actions.length + 1 := by
        rw [hb']
        simp
      have hmax := addAction_maxBufferSize ad.1 ad.2 b
      obtain ⟨ihact, ihmax⟩ := ih (ReplayBuffer.addAction ad.1 ad.2 b)
        (by rw [hb'len, hmax]; omega)
      rw [hstep]
      constructor
      · rw [ihact, hb'len, hmax, hb']
        have hassoc : b.actions ++ (ad :: rest).map wrapAction =
            (b.actions ++ [wrapAction ad]) ++ rest.map wrapAction := by
          simp
        rw [hassoc]
        have hcount : b.actions.length + 1 + rest.length - b.maxBufferSize =
            b.actions.length + (ad :: rest).length - b.maxBufferSize := by
          simp
          omega
        rw [hcount]
      · rw [ihmax, hmax]

/-! ## Claim theorems: replay buffer -/

/-- C2: iterated `addAction` keeps the buffer within `maxBufferSize`; after
`maxBufferSize + 1` additions to a fresh buffer exactly `maxBufferSize`
actions remain and the earliest one is evicted; each eviction moves the cursor
down by one clamped at zero, so it never becomes negative. -/
theorem replayBuffer_bounded_eviction :
    (∀ (adds : List (Int × GameAction)) (b : ReplayBuffer),
      b.actions.length ≤ b.maxBufferSize →
      (foldAdd adds b).actions.length ≤ b.maxBufferSize) ∧
    (∀ (adds : List (Int × GameAction)) (b : ReplayBuffer),
      b.actions = [] → adds.length = b.maxBufferSize + 1 →
      (foldAdd adds b).actions = (adds.map wrapAction).drop 1 ∧
      (foldAdd adds b).actions.length = b.maxBufferSize) ∧
    (∀ (now : Int) (a : GameAction) (b : ReplayBuffer),
      (b.maxBufferSize < b.actions.length + 1 →
        (ReplayBuffer.addAction now a b).currentIndex =
          max 0 (b.currentIndex - 1) ∧
        0 ≤ (ReplayBuffer.addAction now a b).currentIndex) ∧
      (b.actions.length + 1 ≤ b.maxBufferSize →
        (ReplayBuffer.addAction now a b).currentIndex = b.currentIndex)) := by
  refine ⟨?_, ?_, ?_⟩
  · intro adds b hb
    obtain ⟨hact, -⟩ := foldAdd_actions adds b hb
    rw [hact]
    simp
    omega
  · intro adds b hb0 hlen
    obtain ⟨hact, -⟩ := foldAdd_actions adds b (by rw [hb0]; simp)
    have hblen : b.actions.length = 0 := by rw [hb0]; rfl
    have hc : b.actions.length + adds.length - b.maxBufferSize = 1 := by
      rw [hblen, hlen]; omega
    constructor
    · rw [hact, hc, hb0, List.nil_append]
    · rw [hact, hc, hb0, List.nil_append]
      simp
      omega
  · intro now a b
    constructor
    · intro h
      simp only [ReplayBuffer.addAction]
      rw [if_pos (by simp; omega)]
      exact ⟨rfl, le_max_left _ _⟩
    · intro h
      simp only [ReplayBuffer.addAction]
      rw [if_neg (by simp; omega)]

/-- Witness for C2: a fresh buffer with `maxBufferSize = 1` receiving two
actions retains only the second. -/
theorem replayBuffer_bounded_eviction_witness :
    (foldAdd [(1, actA), (2, actB)] (ReplayBuffer.mk' (some 1) none none 0)).actions =
      ([(1, actA), (2, actB)].map wrapAction).drop 1 ∧
    (foldAdd [(1, actA), (2, actB)] (ReplayBuffer.mk' (some 1) none none 0)).actions.length =
      (ReplayBuffer.mk' (some 1) none none 0).maxBufferSize :=
  replayBuffer_bounded_eviction.2.1 [(1, actA), (2, actB)]
    (ReplayBuffer.mk' (some 1) none none 0) rfl rfl

/-- C3 counterexample: on a buffer whose two actions are already applied
(`seekTo(1)` was called earlier), `seekTo(0)` is followed by
`getProgress().appliedActions = 2`, not `k + 1 = 1` — the claim fails for
buffers with applied actions beyond `k`. -/
theorem seekTo_progress_counterexample :
    bufTwoApplied.actions.length = 2 ∧
    (ReplayBuffer.getProgress
      (ReplayBuffer.seekTo 20 0 bufTwoApplied)).appliedActions = 2 ∧
    (2 : Nat) ≠ 0 + 1 := by
  refine ⟨by decide, by decide, by decide⟩

/-- C3 amended: `seekTo(k)` marks actions `0..k` applied, and a subsequent
`getProgress()` reports `appliedActions = k + 1` for `0 ≤ k <` action count,
provided no action beyond index `k` was already applied (seeking never
un-applies, so previously applied actions beyond `k` still count). -/
theorem seekTo_progress_on_unapplied_tail :
    ∀ (b : ReplayBuffer) (now k : Int),
      0 ≤ k → k < (b.actions.length : Int) →
      (∀ a ∈ b.actions.drop (k.toNat + 1), a.applied = false) →
      (ReplayBuffer.getProgress (ReplayBuffer.seekTo now k b)).appliedActions =
        k.toNat + 1 := by
  intro b now k hk0 hklen htail
  have hguard : ¬ (k < 0 ∨ (b.actions.length : Int) ≤ k) := by
    push_neg
    exact ⟨hk0, hklen⟩
  have hkl : k.toNat + 1 ≤ b.actions.length := by omega
  simp only [ReplayBuffer.seekTo, if_neg hguard, ReplayBuffer.getProgress]
  show List.countP _ ((b.actions.take (k.toNat + 1)).map (ReplayBuffer.markApplied now)
      ++ b.actions.drop (k.toNat + 1)) = k.toNat + 1
  rw [List.countP_append]
  have h1 : List.countP (fun a => a.applied)
      ((b.actions.take (k.toNat + 1)).map (ReplayBuffer.markApplied now)) =
      k.toNat + 1 := by
    rw [List.countP_map]
    have hall : ∀ a ∈ b.actions.take (k.toNat + 1),
        ((fun a => BufferedAction.applied a) ∘ ReplayBuffer.markApplied now) a = true := by
      intro a _
      simp only [Function.comp, ReplayBuffer.markApplied]
      split
      · rename_i h; exact h
      · rfl
    rw [List.countP_eq_length.mpr hall]
    simp
    omega
  have h2 : List.countP (fun a => a.applied) (b.actions.drop (k.toNat + 1)) = 0 := by
    rw [List.countP_eq_zero]
    intro a ha
    simp [htail a ha]
  rw [h1, h2]

/-- Witness for C3 amended: `seekTo(1)` on a fresh two-action buffer yields
`appliedActions = 2`. -/
theorem seekTo_progress_on_unapplied_tail_witness :
    (ReplayBuffer.getProgress (ReplayBuffer.seekTo 10 1 bufTwo)).appliedActions =
      (1 : Int).toNat + 1 :=
  seekTo_progress_on_unapplied_tail bufTwo 10 1 (by decide) (by decide) (by decide)

/-- C4: `validateJoin` refuses exactly when `now - gameStartTime` exceeds
`maxGameAge` (reason "Game is too old to join"); otherwise it allows joining,
with a warning reason whenever more than 500 actions are buffered; the
default `maxGameAge` is two hours (7,200,000 ms). -/
theorem validateJoin_too_old_iff :
    ∀ (b : ReplayBuffer) (now : Int),
      ((ReplayBuffer.validateJoin now b).canJoin = false ↔
        b.maxGameAge < now - b.gameStartTime) ∧
      (b.maxGameAge < now - b.gameStartTime →
        (ReplayBuffer.validateJoin now b).reason = some "Game is too old to join") ∧
      (¬ b.maxGameAge < now - b.gameStartTime →
        (ReplayBuffer.validateJoin now b).canJoin = true ∧
        (500 < b.actions.length →
          (ReplayBuffer.validateJoin now b).reason =
            some "Warning: Late join to advanced game")) ∧
      (ReplayBuffer.mk' none none none now).maxGameAge = DEFAULT_MAX_GAME_AGE ∧
      DEFAULT_MAX_GAME_AGE = 7200000 := by
  intro b now
  refine ⟨?_, ?_, ?_, rfl, by decide⟩
  · by_cases hage : b.maxGameAge < now - b.gameStartTime
    · simp [ReplayBuffer.validateJoin, hage]
    · by_cases hcount : 500 < b.actions.length <;>
        simp [ReplayBuffer.validateJoin, hage, hcount]
  · intro hage
    simp [ReplayBuffer.validateJoin, hage]
  · intro hage
    by_cases hcount : 500 < b.actions.length <;>
      simp [ReplayBuffer.validateJoin, hage, hcount]

/-- Witness for C4: a buffer with `maxGameAge = 100` started at time 0,
validated at time 101, refuses with the "too old" reason. -/
theorem validateJoin_too_old_iff_witness :
    (ReplayBuffer.validateJoin 101 (ReplayBuffer.mk' none (some 100) (some 0) 0)).canJoin
        = false ∧
    (ReplayBuffer.validateJoin 101 (ReplayBuffer.mk' none (some 100) (some 0) 0)).reason
        = some "Game is too old to join" := by
  have h := validateJoin_too_old_iff (ReplayBuffer.mk' none (some 100) (some 0) 0) 101
  exact ⟨h.1.mpr (by decide), h.2.1 (by decide)⟩

/-- C8: misuse is a guarded no-op: `startReplay` on an empty buffer, `seekTo`
out of bounds, and `startFastForward` with a target at or before the cursor
each leave the entire buffer state (actions with their applied flags, cursor,
playback state, speed, events) unchanged. -/
theorem replayBuffer_misuse_noop :
    ∀ (b : ReplayBuffer) (now : Int) (fi : Option Int) (idx : Int)
      (topt : Option Int),
      (b.actions.length = 0 → ReplayBuffer.startReplay now fi b = b) ∧
      (idx < 0 ∨ (b.actions.length : Int) ≤ idx →
        ReplayBuffer.seekTo now idx b = b) ∧
      (topt.getD ((b.actions.length : Int) - 1) ≤ b.currentIndex →
        ReplayBuffer.startFastForward now topt b = b) := by
  intro b now fi idx topt
  refine ⟨?_, ?_, ?_⟩
  · intro h
    simp [ReplayBuffer.startReplay, h]
  · intro h
    simp only [ReplayBuffer.seekTo, if_pos h]
  · intro h
    simp only [ReplayBuffer.startFastForward]
    rw [if_pos h]

/-- Witness for C8: all three guarded no-ops on an empty buffer. -/
theorem replayBuffer_misuse_noop_witness :
    ReplayBuffer.startReplay 5 none bufEmpty = bufEmpty ∧
    ReplayBuffer.seekTo 5 0 bufEmpty = bufEmpty ∧
    ReplayBuffer.startFastForward 5 (some 0) bufEmpty = bufEmpty := by
  have h := replayBuffer_misuse_noop bufEmpty 5 none 0 (some 0)
  exact ⟨h.1 rfl, h.2.1 (Or.inr (by decide)), h.2.2 (by decide)⟩

/-- C10: `seekTo(k)` never un-applies an action — every buffered action
beyond index `k` (its applied flag and `appliedAt` timestamp included) is
left exactly as it was; consequently, seeking backward after later actions
were applied leaves them applied, and `getProgress().appliedActions` can
exceed `k + 1` (here: 3 after `seekTo(0)`). -/
theorem seekTo_preserves_applied_beyond_index :
    (∀ (b : ReplayBuffer) (now k : Int),
      (ReplayBuffer.seekTo now k b).actions.drop (k.toNat + 1) =
        b.actions.drop (k.toNat + 1)) ∧
    (ReplayBuffer.getProgress
      (ReplayBuffer.seekTo 40 0 bufThreeApplied)).appliedActions = 3 ∧
    (0 : Int).toNat + 1 < 3 := by
  refine ⟨?_, by decide, by decide⟩
  intro b now k
  simp only [ReplayBuffer.seekTo]
  split
  · rfl
  · rename_i hguard
    show ((b.actions.take (k.toNat + 1)).map (ReplayBuffer.markApplied now)
        ++ b.actions.drop (k.toNat + 1)).drop (k.toNat + 1) =
      b.actions.drop (k.toNat + 1)
    have hlen : ((b.actions.take (k.toNat + 1)).map
        (ReplayBuffer.markApplied now)).length = k.toNat + 1 := by
      simp
      omega
    rw [List.drop_left' hlen]

end PlanarNexus
